import Mathlib

/-!
Verification of the jdsp DSP library's core subsystems against their
natural-language specification.

The numeric code of the repository works on IEEE `f32`/`f64` values; the
embedding models them as exact rationals (`ℚ`), which is the arithmetic the
specification describes ("up to float rounding").  Transcendental primitives
(`tanh`, `ln cosh`, the dilogarithm form, `ln`) have no exact rational
counterpart; they are kept abstract as a parameter record `RealFns`, which is
sound here because every claim under scrutiny exercises only the HardClip
function triple and the control logic, neither of which depends on those
primitives.  Fallible constructors (the oversampler's `todo!` panic) are
modelled with `Except`.
-/

/-- Abstract stand-ins for the transcendental `f64` primitives used by the
Tanh and SoftClipX2 styles (`x.tanh()`, `x.cosh().ln()`, the `Li2`-based
second antiderivative, `ln`).  They are parameters of the model; no claim
below depends on their values. -/
structure RealFns where
  tanh : ℚ → ℚ
  tanh_ad1 : ℚ → ℚ
  tanh_ad2 : ℚ → ℚ
  ln : ℚ → ℚ

/-- A concrete (arbitrary) instantiation of the abstract primitives, used to
state closed witnesses and counterexamples. -/
def zeroFns : RealFns := ⟨fun _ => 0, fun _ => 0, fun _ => 0, fun _ => 0⟩

/-! ### envelope/src/lib.rs -/

/-- `LinearEnvelope` of envelope/src/lib.rs: `current_value`, `target_value`,
`num_steps` (an `i32`, modelled as `ℤ`), `step_size`. -/
structure LinearEnvelope where
  current_value : ℚ
  target_value : ℚ
  num_steps : ℤ
  step_size : ℚ
deriving DecidableEq

/-- `LinearEnvelope::new(start, end, steps)`. -/
def LinearEnvelope.new (start finish : ℚ) (steps : ℤ) : LinearEnvelope :=
  ⟨start, finish, steps, (finish - start) / (steps : ℚ)⟩

/-- `LinearEnvelope::fade_in(steps)`: ramp 0 → 1 with step `1/steps`. -/
def LinearEnvelope.fade_in (steps : ℤ) : LinearEnvelope :=
  ⟨0, 1, steps, 1 / (steps : ℚ)⟩

/-- `LinearEnvelope::fade_out(steps)`: ramp 1 → 0 with step `-1/steps`. -/
def LinearEnvelope.fade_out (steps : ℤ) : LinearEnvelope :=
  ⟨1, 0, steps, -1 / (steps : ℚ)⟩

/-- `Env::consume` for `LinearEnvelope`: while `num_steps > 0` advance
`current_value` by `step_size`, decrement `num_steps` and return the new
current value; afterwards return `target_value` unchanged. -/
def LinearEnvelope.consume (e : LinearEnvelope) : ℚ × LinearEnvelope :=
  if 0 < e.num_steps then
    let c := e.current_value + e.step_size
    (c, { e with current_value := c, num_steps := e.num_steps - 1 })
  else
    (e.target_value, e)

/-- `Env::target_reached`: exact equality of current and target value. -/
def LinearEnvelope.target_reached (e : LinearEnvelope) : Prop :=
  e.current_value = e.target_value

instance (e : LinearEnvelope) : Decidable e.target_reached := by
  unfold LinearEnvelope.target_reached
  infer_instance

/-! ### adaa_nl/src/adaa.rs — data model -/

/-- `ProcessorStyle` of adaa.rs. -/
inductive ProcessorStyle where
  | HardClip
  | Tanh
  | SoftClipX2
deriving DecidableEq

/-- `AntiderivativeOrder` of adaa.rs. -/
inductive AntiderivativeOrder where
  | FirstOrder
  | SecondOrder
deriving DecidableEq

/-- `ProcessorState` of adaa.rs: a single `State(style, order)` variant. -/
inductive ProcessorState where
  | State (style : ProcessorStyle) (order : AntiderivativeOrder)
deriving DecidableEq

/-- `ERR_TOL` of adaa.rs (`1e-5`; the first-order routine writes the same
value as a literal). -/
def ERR_TOL : ℚ := 1 / 100000

/-- `ONE_SIXTH` of adaa.rs. -/
def ONE_SIXTH : ℚ := 1 / 6

/-- `ProcState` of adaa.rs: recurrence history plus the style's function
triple `(nl_func, nl_func_ad1, nl_func_ad2)`. -/
structure ProcState where
  x1 : ℚ
  x2 : ℚ
  d2 : ℚ
  ad1_x1 : ℚ
  ad2_x0 : ℚ
  ad2_x1 : ℚ
  nl_func : ℚ → ℚ
  nl_func_ad1 : ℚ → ℚ
  nl_func_ad2 : ℚ → ℚ

/-- Rust `f64::clamp(self, lo, hi)`: `lo` if below, `hi` if above, else the
value itself. -/
def rust_clamp (x lo hi : ℚ) : ℚ :=
  if x < lo then lo else if hi < x then hi else x

/-- Rust `f64::signum`: `1.0` for non-negative finite values (including
`+0.0`), `-1.0` for negative ones. -/
def rust_signum (x : ℚ) : ℚ :=
  if x < 0 then -1 else 1

/-- `ProcState::HARD_CLIP`: `|x| x.clamp(-1.0, 1.0)`. -/
def ProcState.HARD_CLIP (x : ℚ) : ℚ := rust_clamp x (-1) 1

/-- `ProcState::HARD_CLIP_AD1`: with `clip = max(|val| - 1, 0)`, the value
`0.5 * (val * val - clip * clip)`. -/
def ProcState.HARD_CLIP_AD1 (val : ℚ) : ℚ :=
  let abs_val := |val|
  let clip := max (abs_val - 1) 0
  0.5 * (val * val - clip * clip)

/-- `ProcState::HARD_CLIP_AD2`: branch-free blend of `val³/6` inside
`[-1, 1]` and `((val²·0.5 + 1/6)·signum(val)) - val·0.5` outside. -/
def ProcState.HARD_CLIP_AD2 (val : ℚ) : ℚ :=
  let abs_val := |val|
  let sign_val := rust_signum val
  let is_within_range : ℚ := if abs_val ≤ 1 then 1 else 0
  let is_outside_range := |is_within_range - 1|
  let within_range := val ^ 3 * ONE_SIXTH
  let outside_range := ((val ^ 2 * 0.5) + ONE_SIXTH) * sign_val - val * 0.5
  is_within_range * within_range + is_outside_range * outside_range

/-- `ProcState::SOFT_CLIP_X2`. -/
def ProcState.SOFT_CLIP_X2 (x : ℚ) : ℚ :=
  if 0 ≤ x then -(1 / (x + 1) ^ 2) + 1 else 1 / (-x + 1) ^ 2 - 1

/-- `ProcState::SOFT_CLIP_X2_AD1`. -/
def ProcState.SOFT_CLIP_X2_AD1 (x : ℚ) : ℚ :=
  if 0 ≤ x then 1 / (x + 1) + x else 1 / (-x + 1) - x

/-- `ProcState::SOFT_CLIP_X2_AD2` (`ln` abstract). -/
def ProcState.SOFT_CLIP_X2_AD2 (fns : RealFns) (x : ℚ) : ℚ :=
  if 0 ≤ x then fns.ln |x + 1| + x ^ 2 / 2 else -(fns.ln |(-x) + 1|) - x ^ 2 / 2

/-- `ProcState::tanh_proc_state()`. -/
def ProcState.tanh_proc_state (fns : RealFns) : ProcState :=
  ⟨0, 0, 0, 0, 0, 0, fns.tanh, fns.tanh_ad1, fns.tanh_ad2⟩

/-- `ProcState::hard_clip_proc_state()`. -/
def ProcState.hard_clip_proc_state : ProcState :=
  ⟨0, 0, 0, 0, 0, 0, ProcState.HARD_CLIP, ProcState.HARD_CLIP_AD1,
    ProcState.HARD_CLIP_AD2⟩

/-- `ProcState::soft_clip_x2_proc_state()` (note the source initialises
`d2` to `-1.0` for this style). -/
def ProcState.soft_clip_x2_proc_state (fns : RealFns) : ProcState :=
  ⟨0, 0, -1, 0, 0, 0, ProcState.SOFT_CLIP_X2, ProcState.SOFT_CLIP_X2_AD1,
    ProcState.SOFT_CLIP_X2_AD2 fns⟩

/-! ### adaa_nl/src/adaa.rs — recurrence algorithms -/

/-- `ADAA` of adaa.rs: a recurrence state and the selected algorithm
(`proc_alg` is a function pointer in the source). -/
structure ADAA where
  current_proc_state : ProcState
  proc_alg : ℚ → ProcState → ℚ × ProcState

/-- `ADAA::process_first_order`.  The source compares `diff.abs()` against
the literal `1e-5` (the value of `ERR_TOL`). -/
def ADAA.process_first_order (state : ProcState) (val : ℚ) : ℚ × ProcState :=
  let diff := val - state.x1
  let ad1_x0 := state.nl_func_ad1 val
  let result :=
    if |diff| < ERR_TOL then state.nl_func ((val + state.x1) / 2)
    else (ad1_x0 - state.ad1_x1) / diff
  (result, { state with x1 := val, ad1_x1 := ad1_x0 })

/-- `ADAA::process_second_order`.  `state.ad2_x0` is overwritten first, the
divided differences are epsilon-gated, and the history rotates at the end. -/
def ADAA.process_second_order (state : ProcState) (val : ℚ) : ℚ × ProcState :=
  let ad2_x0 := state.nl_func_ad2 val
  let d1 :=
    if |val - state.x1| < ERR_TOL then state.nl_func_ad1 (0.5 * (val + state.x1))
    else (ad2_x0 - state.ad2_x1) / (val - state.x1)
  let result :=
    if |val - state.x2| < ERR_TOL then
      let xbar := 0.5 * (val + state.x2)
      let delta := xbar - state.x1
      if |delta| < ERR_TOL then state.nl_func (0.5 * (xbar + state.x1))
      else (2 / delta) * (state.nl_func_ad1 xbar +
        (state.ad2_x1 - state.nl_func_ad2 xbar) / delta)
    else (2 / (val - state.x2)) * (d1 - state.d2)
  (result,
   { state with ad2_x0 := ad2_x0, d2 := d1, x2 := state.x1, x1 := val,
                ad2_x1 := ad2_x0 })

/-- `ADAA::PROCESS_FIRST_ORDER` (the function pointer constant). -/
def ADAA.PROCESS_FIRST_ORDER : ℚ → ProcState → ℚ × ProcState :=
  fun x y => ADAA.process_first_order y x

/-- `ADAA::PROCESS_SECOND_ORDER` (the function pointer constant). -/
def ADAA.PROCESS_SECOND_ORDER : ℚ → ProcState → ℚ × ProcState :=
  fun x y => ADAA.process_second_order y x

/-- `ADAA::from_nl_state`. -/
def ADAA.from_nl_state (fns : RealFns) (nl_state : ProcessorState) : ADAA :=
  { current_proc_state :=
      match nl_state with
      | .State .Tanh _ => ProcState.tanh_proc_state fns
      | .State .HardClip _ => ProcState.hard_clip_proc_state
      | .State .SoftClipX2 _ => ProcState.soft_clip_x2_proc_state fns
    proc_alg :=
      match nl_state with
      | .State _ .FirstOrder => ADAA.PROCESS_FIRST_ORDER
      | .State _ .SecondOrder => ADAA.PROCESS_SECOND_ORDER }

/-- `ADAA::process`: run the selected algorithm on the held state. -/
def ADAA.process (a : ADAA) (val : ℚ) : ℚ × ADAA :=
  let r := a.proc_alg val a.current_proc_state
  (r.1, { a with current_proc_state := r.2 })

/-- Sequential per-sample runs of a bare `ADAA` engine over a block. -/
def ADAA.runList (a : ADAA) : List ℚ → List ℚ × ADAA
  | [] => ([], a)
  | x :: xs =>
    let r := a.process x
    let rest := r.2.runList xs
    (r.1 :: rest.1, rest.2)

/-! ### adaa_nl/src/adaa.rs — NonlinearProcessor -/

/-- `FADE_LEN` of adaa.rs. -/
def FADE_LEN : ℤ := 5000

/-- `NonlinearProcessor` of adaa.rs. -/
structure NonlinearProcessor where
  state : ProcessorState
  proc : ADAA
  fade_out : Option LinearEnvelope
  fade_in : Option LinearEnvelope

/-- `NonlinearProcessor::new()`: HardClip/FirstOrder with an active
fade-in envelope of `FADE_LEN` steps. -/
def NonlinearProcessor.new (fns : RealFns) : NonlinearProcessor :=
  { state := .State .HardClip .FirstOrder
    proc := ADAA.from_nl_state fns (.State .HardClip .FirstOrder)
    fade_out := none
    fade_in := some (LinearEnvelope.fade_in FADE_LEN) }

/-- `NonlinearProcessor::change_state`: wholesale engine replacement from
the stored target state. -/
def NonlinearProcessor.change_state (fns : RealFns) (p : NonlinearProcessor) :
    NonlinearProcessor :=
  { p with proc := ADAA.from_nl_state fns p.state }

/-- `NonlinearProcessor::compare_and_change_state`: when the requested state
differs in style or order, record it and start a fade-out; otherwise do
nothing. -/
def NonlinearProcessor.compare_and_change_state (p : NonlinearProcessor)
    (other_state : ProcessorState) : NonlinearProcessor :=
  match p.state, other_state with
  | .State current_style current_order, .State new_style new_order =>
    if current_style ≠ new_style ∨ current_order ≠ new_order then
      { p with state := other_state,
               fade_out := some (LinearEnvelope.fade_out FADE_LEN) }
    else p

/-- `NonlinearProcessor::process`: run the engine, then the fade-out block
(which may swap the engine and install a fresh fade-in), then the fade-in
block — on the same call, exactly as the two sequential `if let` blocks of
the source. -/
def NonlinearProcessor.process (fns : RealFns) (p : NonlinearProcessor)
    (val : ℚ) : ℚ × NonlinearProcessor :=
  let pr := p.proc.process val
  let s1 : ℚ × NonlinearProcessor :=
    match p.fade_out with
    | none => (pr.1, { p with proc := pr.2 })
    | some env =>
      let c := env.consume
      if c.2.target_reached then
        (pr.1 * c.1,
         { state := p.state, proc := ADAA.from_nl_state fns p.state,
           fade_out := none,
           fade_in := some (LinearEnvelope.fade_in FADE_LEN) })
      else (pr.1 * c.1, { p with proc := pr.2, fade_out := some c.2 })
  match s1.2.fade_in with
  | none => s1
  | some env =>
    let c := env.consume
    if c.2.target_reached then (s1.1 * c.1, { s1.2 with fade_in := none })
    else (s1.1 * c.1, { s1.2 with fade_in := some c.2 })

/-- Sequential per-sample runs of a `NonlinearProcessor` over a block. -/
def NonlinearProcessor.runList (fns : RealFns) (p : NonlinearProcessor) :
    List ℚ → List ℚ × NonlinearProcessor
  | [] => ([], p)
  | x :: xs =>
    let r := p.process fns x
    let rest := r.2.runList fns xs
    (r.1 :: rest.1, rest.2)

/-- Specification-side snapshot of the fade-in envelope after `m` of its
5000 steps have been consumed. -/
def fadeInAt (m : ℕ) : LinearEnvelope :=
  ⟨(m : ℚ) / 5000, 1, 5000 - (m : ℤ), 1 / 5000⟩

/-- Specification-side snapshot of the fade-out envelope after `m` of its
5000 steps have been consumed. -/
def fadeOutAt (m : ℕ) : LinearEnvelope :=
  ⟨(5000 - (m : ℚ)) / 5000, 0, 5000 - (m : ℤ), -1 / 5000⟩

/-- Raw engine outputs scaled by the rising fade-in gains
`(m+1)/5000, (m+2)/5000, …`. -/
def scaleIn : ℕ → List ℚ → List ℚ
  | _, [] => []
  | m, y :: ys => y * (((m : ℚ) + 1) / 5000) :: scaleIn (m + 1) ys

/-- Raw engine outputs scaled by the decaying fade-out gains
`(4999-m)/5000, (4998-m)/5000, …`. -/
def scaleOut : ℕ → List ℚ → List ℚ
  | _, [] => []
  | m, y :: ys => y * ((4999 - (m : ℚ)) / 5000) :: scaleOut (m + 1) ys

/-! ### circular_buffer/src/circular_buffer.rs — CircularDelayBuffer -/

/-- `CircularDelayBuffer` of circular_buffer.rs: backing vector, cursor and
capacity (`size = data.len()` at construction). -/
structure CircularDelayBuffer where
  data : List ℚ
  pos : ℕ
  size : ℕ

/-- `CircularDelayBuffer::new(initial_size)`: zeroed storage, cursor 0. -/
def CircularDelayBuffer.new (initial_size : ℕ) : CircularDelayBuffer :=
  ⟨List.replicate initial_size 0, 0, initial_size⟩

/-- `CircularDelayBuffer::push`: write at the cursor. -/
def CircularDelayBuffer.push (b : CircularDelayBuffer) (val : ℚ) :
    CircularDelayBuffer :=
  { b with data := b.data.set b.pos val }

/-- `CircularDelayBuffer::decrement_pos`: wrap backwards. -/
def CircularDelayBuffer.decrement_pos (b : CircularDelayBuffer) :
    CircularDelayBuffer :=
  { b with pos := if b.pos = 0 then b.size - 1 else b.pos - 1 }

/-- One iteration of the loop body of `CircularDelayBuffer::delay`: push the
sample, decrement the cursor, read back `data[pos]`. -/
def CircularDelayBuffer.delay1 (b : CircularDelayBuffer) (v : ℚ) :
    ℚ × CircularDelayBuffer :=
  let b1 := (b.push v).decrement_pos
  (b1.data.getD b1.pos 0, b1)

/-- `CircularDelayBuffer::delay(input)`: in-place replacement of a block,
modelled as block in, block out. -/
def CircularDelayBuffer.delay (b : CircularDelayBuffer) :
    List ℚ → List ℚ × CircularDelayBuffer
  | [] => ([], b)
  | v :: vs =>
    let r := b.delay1 v
    let rest := r.2.delay vs
    (r.1 :: rest.1, rest.2)

/-- Repeated `delay` calls over a partition of the input into batches,
concatenating the produced blocks. -/
def CircularDelayBuffer.delayBatches (b : CircularDelayBuffer) :
    List (List ℚ) → List ℚ × CircularDelayBuffer
  | [] => ([], b)
  | blk :: blks =>
    let r := b.delay blk
    let rest := r.2.delayBatches blks
    (r.1 ++ rest.1, rest.2)

/-- Specification-side queue model of the ring: the most recent `N` stored
samples, newest first.  One step pushes the new sample in front, truncates to
`N`, and outputs the last (oldest) slot of the new queue. -/
def qstep (N : ℕ) (q : List ℚ) (v : ℚ) : ℚ × List ℚ :=
  let q2 := (v :: q).take N
  (q2.getD (N - 1) 0, q2)

/-- Runs of the queue model over a block. -/
def qrun (N : ℕ) (q : List ℚ) : List ℚ → List ℚ × List ℚ
  | [] => ([], q)
  | v :: vs =>
    let r := qstep N q v
    let rest := qrun N r.2 vs
    (r.1 :: rest.1, rest.2)

/-- Abstraction function from the ring buffer to the queue model: entry `i`
is the sample written `i` steps ago, read going forward from the cursor. -/
def recentOf (b : CircularDelayBuffer) : List ℚ :=
  List.ofFn fun i : Fin b.size => b.data.getD ((b.pos + 1 + i) % b.size) 0

/-! ### oversampler/src/oversample.rs — a non-compiling snapshot

The oversampler crate of this snapshot is mid-refactor: `OversampleStage`
imports `SizedCircularConvBuff32`, `SizedDelayBuffer32` and `SampleRole`,
none of which exist anywhere in the sources; `OversampleStage::new` begins
with an unconditional `todo!` panic; `Oversample::new` calls it with one
argument instead of three; `Oversample::process_up` never writes to its
output parameter; and `Oversample::process_down` iterates over a field
`down_stages` that the struct does not declare.  The model below captures
the one well-defined observable fact — construction cannot return — with
panicking construction embedded as `Except.error`. -/

/-- `OversampleFactor` of oversample.rs (discriminants 1 to 4 name the
2x, 4x, 8x and 16x factors). -/
inductive OversampleFactor where
  | TwoTimes
  | FourTimes
  | EightTimes
  | SixteenTimes
deriving DecidableEq

/-- `SampleRole`: imported by oversample_stage.rs (`use
crate::oversample::SampleRole`) but defined nowhere in the snapshot;
reconstructed from its two uses. -/
inductive SampleRole where
  | UpSampleStage
  | DownSampleStage

/-- `OversampleStage`: only the output buffer is observable here; the
constructor never returns (see `OversampleStage.new`). -/
structure OversampleStage where
  data : List ℚ

/-- `OversampleStage::new(target_size, role, _kernel_size)`: the body begins
with the unconditional panic `todo!("implement kernel_size as parameter")`,
so every call fails before reading any argument; the panic is modelled as
`Except.error`. -/
def OversampleStage.new (target_size : ℕ) (role : SampleRole)
    (kernel_size : ℕ) : Except String OversampleStage :=
  Except.error "not yet implemented: implement kernel_size as parameter"

/-- `Oversample` of oversample.rs: `buff_size`, `factor`, and the single
remaining `stage_0` (the up/down cascade lists were removed in this
snapshot). -/
structure Oversample where
  buff_size : ℕ
  factor : OversampleFactor
  stage_0 : OversampleStage

/-- `Oversample::new(initial_factor, init_buff_size)`.  The source calls
`OversampleStage::new(init_buff_size)` with one argument where the callee
takes three (an arity error in the snapshot); since the callee fails before
reading any argument, the missing role and kernel-size arguments are
supplied arbitrarily here.  Construction always fails either way. -/
def Oversample.new (initial_factor : OversampleFactor)
    (init_buff_size : ℕ) : Except String Oversample :=
  (OversampleStage.new init_buff_size SampleRole.UpSampleStage 0).map
    fun s =>
      { factor := initial_factor, buff_size := init_buff_size, stage_0 := s }

/-- `Oversample::get_oversample_factor`. -/
def Oversample.get_oversample_factor (o : Oversample) : OversampleFactor :=
  o.factor

/-- The round-trip experiment of the spec: construct the oversampler, feed
a block through `process_up`, then through `process_down`.  Construction
already fails; past it, the snapshot's `process_up` writes nothing into its
output and `process_down` reads the nonexistent `down_stages` field, so no
further step can be given semantics. -/
def Oversample.round_trip (factor : OversampleFactor) (block_size : ℕ)
    (input : List ℚ) : Except String (List ℚ) := do
  let _os ← Oversample.new factor block_size
  Except.error "process_up and process_down do not compile in this snapshot"

/-! ### Claim theorems: ADAA recurrences and the HardClip triple -/

/-- C1.  First-order ADAA recurrence: the output is the epsilon-gated
divided difference of the first antiderivative, and the state update writes
exactly `x1 := x0` and `ad1_x1 := F1(x0)`, leaving every other recurrence
field and the function triple untouched. -/
theorem first_order_recurrence (s : ProcState) (x0 : ℚ) :
    ADAA.process_first_order s x0 =
      (if |x0 - s.x1| < ERR_TOL then s.nl_func ((x0 + s.x1) / 2)
       else (s.nl_func_ad1 x0 - s.ad1_x1) / (x0 - s.x1),
       { s with x1 := x0, ad1_x1 := s.nl_func_ad1 x0 }) := rfl

/-- C2.  Second-order ADAA recurrence: `ad2_x0 = F2(x0)` is computed first,
`d1` is the epsilon-gated divided difference of `F2`, the output handles the
`|x0 - x2| < ε` (and nested `|xbar - x1| < ε`) degeneracies, and the state
rotates `d2 ← d1`, `x2 ← x1`, `x1 ← x0`, `ad2_x1 ← ad2_x0`. -/
theorem second_order_recurrence (s : ProcState) (x0 : ℚ) :
    ADAA.process_second_order s x0 =
      (if |x0 - s.x2| < ERR_TOL then
         if |(x0 + s.x2) / 2 - s.x1| < ERR_TOL then
           s.nl_func (((x0 + s.x2) / 2 + s.x1) / 2)
         else
           (2 / ((x0 + s.x2) / 2 - s.x1)) *
             (s.nl_func_ad1 ((x0 + s.x2) / 2) +
               (s.ad2_x1 - s.nl_func_ad2 ((x0 + s.x2) / 2)) /
                 ((x0 + s.x2) / 2 - s.x1))
       else
         (2 / (x0 - s.x2)) *
           ((if |x0 - s.x1| < ERR_TOL then s.nl_func_ad1 ((x0 + s.x1) / 2)
             else (s.nl_func_ad2 x0 - s.ad2_x1) / (x0 - s.x1)) - s.d2),
       { s with
           ad2_x0 := s.nl_func_ad2 x0
           d2 := if |x0 - s.x1| < ERR_TOL then s.nl_func_ad1 ((x0 + s.x1) / 2)
                 else (s.nl_func_ad2 x0 - s.ad2_x1) / (x0 - s.x1)
           x2 := s.x1
           x1 := x0
           ad2_x1 := s.nl_func_ad2 x0 }) := by
  have hhalf : ∀ y : ℚ, (0.5 : ℚ) * y = y / 2 := fun y => by ring
  unfold ADAA.process_second_order
  simp only [hhalf]

/-- C3 (amended).  The HardClip triple: `f` is `clamp(x, -1, 1)`; `F1` is
`x²/2` inside `[-1, 1]` and `|x| - 1/2` outside; `F2` is `x³/6` inside and
the quadratic `signum(x)·(x²/2 + 1/6) - x/2` outside, which agrees with the
inner branch at `x = 1` and `x = -1` (continuity). -/
theorem hard_clip_triple (x : ℚ) :
    ProcState.HARD_CLIP x = rust_clamp x (-1) 1
    ∧ (|x| ≤ 1 → ProcState.HARD_CLIP_AD1 x = x ^ 2 / 2)
    ∧ (1 < |x| → ProcState.HARD_CLIP_AD1 x = |x| - 1 / 2)
    ∧ (|x| ≤ 1 → ProcState.HARD_CLIP_AD2 x = x ^ 3 / 6)
    ∧ (1 < |x| →
        ProcState.HARD_CLIP_AD2 x = rust_signum x * (x ^ 2 / 2 + 1 / 6) - x / 2)
    ∧ ProcState.HARD_CLIP_AD2 1 = 1 / 6
    ∧ rust_signum 1 * ((1 : ℚ) ^ 2 / 2 + 1 / 6) - 1 / 2 = 1 / 6
    ∧ ProcState.HARD_CLIP_AD2 (-1) = -(1 / 6)
    ∧ rust_signum (-1) * (((-1 : ℚ)) ^ 2 / 2 + 1 / 6) - (-1) / 2 = -(1 / 6) := by
  have habs0 : |(1 : ℚ) - 1| = 0 := by norm_num
  have habs1 : |(0 : ℚ) - 1| = 1 := by norm_num
  refine ⟨rfl, ?_, ?_, ?_, ?_, ?_, by norm_num [rust_signum], ?_,
    by norm_num [rust_signum]⟩
  · intro h
    have h0 : max (|x| - 1) 0 = 0 := max_eq_right (by linarith)
    simp only [ProcState.HARD_CLIP_AD1, h0]
    ring
  · intro h
    have h0 : max (|x| - 1) 0 = |x| - 1 := max_eq_left (by linarith)
    have hx : |x| * |x| = x * x := abs_mul_abs_self x
    simp only [ProcState.HARD_CLIP_AD1, h0]
    linear_combination (-1 / 2 : ℚ) * hx
  · intro h
    have h1 : (if |x| ≤ 1 then (1 : ℚ) else 0) = 1 := if_pos h
    simp only [ProcState.HARD_CLIP_AD2, h1, habs0, ONE_SIXTH]
    ring
  · intro h
    have h1 : (if |x| ≤ 1 then (1 : ℚ) else 0) = 0 := if_neg (by linarith)
    simp only [ProcState.HARD_CLIP_AD2, h1, habs1, ONE_SIXTH]
    ring
  · norm_num [ProcState.HARD_CLIP_AD2, rust_signum, ONE_SIXTH]
  · norm_num [ProcState.HARD_CLIP_AD2, rust_signum, ONE_SIXTH]

/-- C3, counterexample to the claim as stated: on the outside region the
second antiderivative is not affine — at the equally spaced points 2, 3, 4
(all greater than 1) its successive differences disagree, which no affine
function allows. -/
theorem hard_clip_ad2_not_affine_outside :
    ProcState.HARD_CLIP_AD2 2 = 7 / 6
    ∧ ProcState.HARD_CLIP_AD2 3 = 19 / 6
    ∧ ProcState.HARD_CLIP_AD2 4 = 37 / 6
    ∧ (ProcState.HARD_CLIP_AD2 3 - ProcState.HARD_CLIP_AD2 2 ≠
        ProcState.HARD_CLIP_AD2 4 - ProcState.HARD_CLIP_AD2 3) := by
  have h2 : ProcState.HARD_CLIP_AD2 2 = 7 / 6 := by
    norm_num [ProcState.HARD_CLIP_AD2, rust_signum, ONE_SIXTH]
  have h3 : ProcState.HARD_CLIP_AD2 3 = 19 / 6 := by
    norm_num [ProcState.HARD_CLIP_AD2, rust_signum, ONE_SIXTH]
  have h4 : ProcState.HARD_CLIP_AD2 4 = 37 / 6 := by
    norm_num [ProcState.HARD_CLIP_AD2, rust_signum, ONE_SIXTH]
  refine ⟨h2, h3, h4, ?_⟩
  rw [h2, h3, h4]
  norm_num

/-! ### Delay-line semantics (ring buffer vs shift register) -/

/-- Reading an `ofFn` list over `Fin N` through `getD` evaluates the
generating function. -/
theorem getD_ofFn_fn (N : ℕ) (g : ℕ → ℚ) (j : ℕ) (hj : j < N) :
    (List.ofFn fun i : Fin N => g ↑i).getD j 0 = g j := by
  rw [List.getD_eq_getElem _ _ (by simpa using hj), List.getElem_ofFn]

/-- Reading a truncated list through `getD` below the truncation point reads
the original list. -/
theorem getD_take (l : List ℚ) (N j : ℕ) (hj : j < N) (hl : j < l.length) :
    (l.take N).getD j 0 = l.getD j 0 := by
  rw [List.getD_eq_getElem _ _
      (by simp only [List.length_take]; omega),
    List.getElem_take, List.getD_eq_getElem _ _ hl]

theorem delay1_abs (b : CircularDelayBuffer) (v : ℚ) (hpos : b.pos < b.size)
    (hlen : b.data.length = b.size) :
    (b.delay1 v).1 = (qstep b.size (recentOf b) v).1
    ∧ recentOf (b.delay1 v).2 = (qstep b.size (recentOf b) v).2
    ∧ (b.delay1 v).2.size = b.size
    ∧ (b.delay1 v).2.pos < b.size
    ∧ (b.delay1 v).2.data.length = b.size := by
  obtain ⟨d, p, N⟩ := b
  simp only at hpos hlen
  have hN : 0 < N := Nat.lt_of_le_of_lt (Nat.zero_le _) hpos
  simp only [CircularDelayBuffer.delay1, CircularDelayBuffer.push,
    CircularDelayBuffer.decrement_pos, recentOf, qstep]
  set p2 : ℕ := if p = 0 then N - 1 else p - 1 with hp2
  have hp2lt : p2 < N := by
    by_cases h : p = 0 <;> simp only [hp2, h, if_true, if_false] <;> omega
  have hidx : ∀ i : ℕ, (p2 + 1 + i) % N = (p + i) % N := by
    intro i
    by_cases h : p = 0
    · have h1 : p2 + 1 + i = i + N := by simp only [hp2, h, if_true]; omega
      rw [h1, Nat.add_mod_right, h, Nat.zero_add]
    · have h1 : p2 + 1 = p := by simp only [hp2, h, if_false]; omega
      rw [h1]
  have hlenset : (d.set p v).length = N := by rw [List.length_set]; exact hlen
  have habs :
      (List.ofFn fun i : Fin N => (d.set p v).getD ((p2 + 1 + i) % N) 0) =
        (v :: List.ofFn fun i : Fin N => d.getD ((p + 1 + i) % N) 0).take N := by
    apply List.ext_getElem
    · simp
    · intro j h1 h2
      have hjN : j < N := by simpa using h1
      rw [← List.getD_eq_getElem _ 0 h1, ← List.getD_eq_getElem _ 0 h2]
      rw [getD_ofFn_fn N (fun t => (d.set p v).getD ((p2 + 1 + t) % N) 0) j hjN]
      rw [getD_take _ N j hjN
        (by simp only [List.length_cons, List.length_ofFn]; omega)]
      clear h1 h2
      rcases j with _ | i
      · simp only [List.getD_cons_zero]
        have hidx0 : (p2 + 1 + (0 : ℕ)) % N = p := by
          rw [hidx, Nat.add_zero, Nat.mod_eq_of_lt hpos]
        rw [hidx0]
        rw [List.getD_eq_getElem _ _ (by omega)]
        exact List.getElem_set_self _
      · simp only [List.getD_cons_succ]
        rw [getD_ofFn_fn N (fun t => d.getD ((p + 1 + t) % N) 0) i (by omega)]
        have hstep : (p2 + 1 + (i + 1)) % N = (p + 1 + i) % N := by
          rw [hidx]
          congr 1
          omega
        rw [hstep]
        have hmlt : (p + 1 + i) % N < N := Nat.mod_lt _ hN
        have hne : (p + 1 + i) % N ≠ p := by
          rcases Nat.lt_or_ge (p + 1 + i) N with hlt | hge
          · rw [Nat.mod_eq_of_lt hlt]; omega
          · have hlt2 : p + 1 + i - N < N := by omega
            rw [Nat.mod_eq_sub_mod hge, Nat.mod_eq_of_lt hlt2]; omega
        rw [List.getD_eq_getElem _ _ (by omega),
          List.getD_eq_getElem _ _ (by omega),
          List.getElem_set_ne (Ne.symm hne)]
  refine ⟨?_, habs, by trivial, hp2lt, hlenset⟩
  rw [← habs]
  have hlast : (p2 + 1 + (N - 1)) % N = p2 := by
    have h1 : p2 + 1 + (N - 1) = p2 + N := by omega
    rw [h1, Nat.add_mod_right, Nat.mod_eq_of_lt hp2lt]
  rw [getD_ofFn_fn N (fun t => (d.set p v).getD ((p2 + 1 + t) % N) 0) (N - 1)
    (by omega)]
  rw [hlast]

/-- Runs of the ring buffer and of the queue model agree through `recentOf`
on every block, and the invariants persist. -/
theorem delay_bisim :
    ∀ (vs : List ℚ) (b : CircularDelayBuffer), b.pos < b.size →
      b.data.length = b.size →
      (b.delay vs).1 = (qrun b.size (recentOf b) vs).1
      ∧ recentOf (b.delay vs).2 = (qrun b.size (recentOf b) vs).2
      ∧ (b.delay vs).2.size = b.size
      ∧ (b.delay vs).2.pos < b.size
      ∧ (b.delay vs).2.data.length = b.size := by
  intro vs
  induction vs with
  | nil =>
    intro b h1 h2
    simp only [CircularDelayBuffer.delay, qrun]
    exact ⟨by trivial, by trivial, by trivial, h1, h2⟩
  | cons v vs ih =>
    intro b h1 h2
    obtain ⟨ho, ha, hs, hp, hl⟩ := delay1_abs b v h1 h2
    have ihr := ih (b.delay1 v).2 (by rw [hs]; exact hp) (by rw [hs]; exact hl)
    rw [hs] at ihr
    simp only [CircularDelayBuffer.delay, qrun]
    refine ⟨?_, ?_, ihr.2.2.1, ihr.2.2.2.1, ihr.2.2.2.2⟩
    · rw [ho, ihr.1, ha]
    · rw [ihr.2.1, ha]

/-- Closed form of the queue model from a full queue: the first `n` outputs
replay the stored history (oldest last), afterwards the inputs come out
shifted by `n`. -/
theorem qrun_outs :
    ∀ (vs : List ℚ) (n : ℕ) (q : List ℚ), q.length = n + 1 →
      (qrun (n + 1) q vs).1 = ((q.take n).reverse ++ vs).take vs.length := by
  intro vs
  induction vs with
  | nil => intro n q hq; simp [qrun]
  | cons v vs ih =>
    intro n q hq
    simp only [qrun, qstep, List.take_succ_cons, Nat.add_sub_cancel]
    rcases n with _ | m
    · have ihr := ih 0 [v] rfl
      simp only [List.take_zero, List.reverse_nil, List.nil_append,
        List.take_length] at ihr ⊢
      simp only [List.getD_cons_zero]
      rw [ihr]
    · have hm : m < q.length := by omega
      have htake : q.take (m + 1) = q.take m ++ [q[m]] := by
        rw [List.take_succ, List.getElem?_eq_getElem hm]
        rfl
      have hout : (v :: q.take (m + 1)).getD (m + 1) 0 = q[m] := by
        rw [List.getD_cons_succ, htake,
          List.getD_eq_getElem _ _
            (by simp only [List.length_append, List.length_take,
              List.length_cons]; omega),
          List.getElem_append_right
            (by simp only [List.length_take]; omega)]
        simp [List.length_take, Nat.min_eq_left (Nat.le_of_lt hm)]
      have hq2take : (v :: q.take (m + 1)).take (m + 1) = v :: q.take m := by
        rw [List.take_succ_cons, List.take_take, Nat.min_eq_left (by omega)]
      have ihr := ih (m + 1) (v :: q.take (m + 1))
        (by simp only [List.length_cons, List.length_take]; omega)
      rw [hq2take] at ihr
      rw [hout, ihr, htake]
      simp only [List.reverse_cons, List.reverse_append, List.reverse_singleton,
        List.reverse_nil, List.nil_append, List.append_assoc,
        List.singleton_append, List.cons_append, List.length_cons,
        List.take_succ_cons]

/-- The abstraction of a freshly constructed delay buffer is the zero
queue. -/
theorem recentOf_new (N : ℕ) : recentOf (CircularDelayBuffer.new N) = List.replicate N 0 := by
  have hval : ∀ k, (List.replicate N (0 : ℚ)).getD k 0 = 0 := by
    intro k
    rcases Nat.lt_or_ge k N with h | h
    · rw [List.getD_eq_getElem _ _ (by simpa using h)]
      simp
    · rw [List.getD_eq_default _ _ (by simpa using h)]
  apply List.ext_getElem
  · simp [recentOf, CircularDelayBuffer.new]
  · intro j h1 h2
    rw [← List.getD_eq_getElem _ 0 h1, ← List.getD_eq_getElem _ 0 h2]
    have hjN : j < N := by
      simpa [recentOf, CircularDelayBuffer.new] using h1
    simp only [recentOf, CircularDelayBuffer.new]
    rw [getD_ofFn_fn N
      (fun t => (List.replicate N (0 : ℚ)).getD ((0 + 1 + t) % N) 0) j hjN]
    rw [hval, hval]

/-- `delay` distributes over concatenated blocks (calls compose through the
carried buffer state). -/
theorem delay_append (b : CircularDelayBuffer) (xs ys : List ℚ) :
    b.delay (xs ++ ys) =
      ((b.delay xs).1 ++ ((b.delay xs).2.delay ys).1,
        ((b.delay xs).2.delay ys).2) := by
  induction xs generalizing b with
  | nil => simp [CircularDelayBuffer.delay]
  | cons x xs ih => simp [CircularDelayBuffer.delay, ih]

/-- Batched delaying equals a single `delay` over the concatenation. -/
theorem delayBatches_eq (b : CircularDelayBuffer) (bs : List (List ℚ)) :
    b.delayBatches bs = b.delay bs.flatten := by
  induction bs generalizing b with
  | nil => simp [CircularDelayBuffer.delayBatches, CircularDelayBuffer.delay]
  | cons blk blks ih =>
    simp [CircularDelayBuffer.delayBatches, List.flatten_cons, delay_append, ih]

/-- C7 (amended).  For every capacity `N ≥ 1` and every input sequence,
however it is partitioned into batches, the delay line's cumulative output
is the input shifted by `N - 1` samples — a shift register of length
`N - 1` (the first `N - 1` outputs are zero), not length `N`. -/
theorem delay_shift_register (N : ℕ) (hN : 1 ≤ N) (bs : List (List ℚ)) :
    ((CircularDelayBuffer.new N).delayBatches bs).1 =
      (List.replicate (N - 1) 0 ++ bs.flatten).take bs.flatten.length := by
  obtain ⟨n, rfl⟩ : ∃ n, N = n + 1 := ⟨N - 1, by omega⟩
  rw [delayBatches_eq]
  have hb := delay_bisim bs.flatten (CircularDelayBuffer.new (n + 1))
    (Nat.succ_pos n) (List.length_replicate (n + 1) 0)
  have hsize : (CircularDelayBuffer.new (n + 1)).size = n + 1 := rfl
  rw [hb.1, hsize, recentOf_new, qrun_outs _ n _ (by simp)]
  rw [List.take_replicate, List.reverse_replicate, Nat.min_eq_left (by omega)]
  simp

/-- C7, counterexample to the claim as stated: with capacity `N = 5` the
block `[1, 2, 3, 4, 5]` comes out as `[0, 0, 0, 0, 1]` — the fifth output
already replays the first input, so the delay is 4 = N - 1 samples, while a
length-`N` shift register would still output `[0, 0, 0, 0, 0]`. -/
theorem delay_five_counterexample :
    ((CircularDelayBuffer.new 5).delay [1, 2, 3, 4, 5]).1 = [0, 0, 0, 0, 1]
    ∧ ([0, 0, 0, 0, (1 : ℚ)] ≠ [0, 0, 0, 0, 0]) := by
  constructor
  · rfl
  · simp

/-- C7 witness: the shift-register characterisation evaluated at capacity 5
on the partition `[[1, 2, 3], [4, 5, 6, 7]]`. -/
theorem delay_shift_register_witness :
    (1 ≤ 5)
    ∧ ((CircularDelayBuffer.new 5).delayBatches [[1, 2, 3], [4, 5, 6, 7]]).1 =
      (List.replicate (5 - 1) 0 ++
        ([[1, 2, 3], [4, 5, 6, 7]] : List (List ℚ)).flatten).take
        ([[1, 2, 3], [4, 5, 6, 7]] : List (List ℚ)).flatten.length :=
  ⟨by norm_num, delay_shift_register 5 (by norm_num) [[1, 2, 3], [4, 5, 6, 7]]⟩

/-! ### Envelope and engine helper lemmas -/

/-- The envelope installed by `fade_in FADE_LEN` is the `m = 0` snapshot. -/
theorem fade_in_eq_fadeInAt : LinearEnvelope.fade_in FADE_LEN = fadeInAt 0 := by
  simp [LinearEnvelope.fade_in, fadeInAt, FADE_LEN]

/-- The envelope installed by `fade_out FADE_LEN` is the `m = 0` snapshot. -/
theorem fade_out_eq_fadeOutAt : LinearEnvelope.fade_out FADE_LEN = fadeOutAt 0 := by
  simp [LinearEnvelope.fade_out, fadeOutAt, FADE_LEN]

/-- Consuming the fade-in envelope advances its snapshot by one step and
returns the new gain `(m+1)/5000`. -/
theorem fadeInAt_consume (m : ℕ) (hm : m < 5000) :
    (fadeInAt m).consume = (((m : ℚ) + 1) / 5000, fadeInAt (m + 1)) := by
  simp only [fadeInAt, LinearEnvelope.consume]
  rw [if_pos (show (0 : ℤ) < 5000 - (m : ℤ) by omega)]
  have h1 : (m : ℚ) / 5000 + 1 / 5000 = ((m : ℚ) + 1) / 5000 := by ring
  have h3 : ((m + 1 : ℕ) : ℚ) = (m : ℚ) + 1 := by push_cast; ring
  have h4 : (5000 : ℤ) - ((m + 1 : ℕ) : ℤ) = 5000 - (m : ℤ) - 1 := by
    push_cast
    ring
  simp only [h1, h3, h4]

/-- Consuming the fade-out envelope advances its snapshot by one step and
returns the new gain `(4999-m)/5000`. -/
theorem fadeOutAt_consume (m : ℕ) (hm : m < 5000) :
    (fadeOutAt m).consume = ((4999 - (m : ℚ)) / 5000, fadeOutAt (m + 1)) := by
  simp only [fadeOutAt, LinearEnvelope.consume]
  rw [if_pos (show (0 : ℤ) < 5000 - (m : ℤ) by omega)]
  have h1 : (5000 - (m : ℚ)) / 5000 + -1 / 5000 = (4999 - (m : ℚ)) / 5000 := by
    ring
  have h3 : (5000 : ℚ) - ((m + 1 : ℕ) : ℚ) = 4999 - (m : ℚ) := by
    push_cast
    ring
  have h4 : (5000 : ℤ) - ((m + 1 : ℕ) : ℤ) = 5000 - (m : ℤ) - 1 := by
    push_cast
    ring
  simp only [h1, h3, h4]

/-- The fade-in snapshot reaches its target exactly at step 5000. -/
theorem fadeInAt_target (m : ℕ) : (fadeInAt m).target_reached ↔ m = 5000 := by
  simp only [fadeInAt, LinearEnvelope.target_reached]
  rw [div_eq_one_iff_eq (by norm_num)]
  exact_mod_cast Iff.rfl

/-- The fade-out snapshot reaches its target exactly at step 5000. -/
theorem fadeOutAt_target (m : ℕ) : (fadeOutAt m).target_reached ↔ m = 5000 := by
  simp only [fadeOutAt, LinearEnvelope.target_reached, div_eq_zero_iff]
  constructor
  · rintro (h | h)
    · exact_mod_cast (by linarith : (m : ℚ) = 5000)
    · exact absurd h (by norm_num)
  · intro h
    subst h
    left
    norm_num

/-- The hard-clip curve is zero at zero. -/
theorem HARD_CLIP_zero : ProcState.HARD_CLIP 0 = 0 := by
  norm_num [ProcState.HARD_CLIP, rust_clamp]

/-- The hard-clip first antiderivative is zero at zero. -/
theorem HARD_CLIP_AD1_zero : ProcState.HARD_CLIP_AD1 0 = 0 := by
  have h : max (|(0 : ℚ)| - 1) 0 = 0 := by
    rw [abs_zero]
    exact max_eq_right (by norm_num)
  simp [ProcState.HARD_CLIP_AD1, h]

/-- The hard-clip second antiderivative is zero at zero. -/
theorem HARD_CLIP_AD2_zero : ProcState.HARD_CLIP_AD2 0 = 0 := by
  norm_num [ProcState.HARD_CLIP_AD2, rust_signum, ONE_SIXTH]

set_option maxRecDepth 4000 in
/-- A fresh first-order hard-clip engine is a fixpoint of processing the
sample 0 (which it maps to 0). -/
theorem first_order_zero_fix (fns : RealFns) :
    (ADAA.from_nl_state fns (.State .HardClip .FirstOrder)).process 0 =
      (0, ADAA.from_nl_state fns (.State .HardClip .FirstOrder)) := by
  simp only [ADAA.process, ADAA.from_nl_state, ADAA.PROCESS_FIRST_ORDER,
    ADAA.process_first_order, ProcState.hard_clip_proc_state]
  norm_num [ERR_TOL, ProcState.HARD_CLIP, ProcState.HARD_CLIP_AD1, rust_clamp]

set_option maxRecDepth 4000 in
/-- A fresh second-order hard-clip engine is a fixpoint of processing the
sample 0 (which it maps to 0). -/
theorem second_order_zero_fix (fns : RealFns) :
    (ADAA.from_nl_state fns (.State .HardClip .SecondOrder)).process 0 =
      (0, ADAA.from_nl_state fns (.State .HardClip .SecondOrder)) := by
  simp only [ADAA.process, ADAA.from_nl_state, ADAA.PROCESS_SECOND_ORDER,
    ADAA.process_second_order, ProcState.hard_clip_proc_state]
  norm_num [ERR_TOL, ProcState.HARD_CLIP, ProcState.HARD_CLIP_AD1,
    ProcState.HARD_CLIP_AD2, rust_clamp, rust_signum, ONE_SIXTH]

/-- An engine that fixes the zero sample fixes every block of zeros. -/
theorem runList_zero_fix (A : ADAA) (hA : A.process 0 = (0, A)) (n : ℕ) :
    A.runList (List.replicate n 0) = (List.replicate n 0, A) := by
  induction n with
  | zero => simp [ADAA.runList]
  | succ k ih => simp [List.replicate_succ, ADAA.runList, hA, ih]

/-- Scaling a block of zeros changes nothing. -/
theorem scaleIn_zeros (m n : ℕ) :
    scaleIn m (List.replicate n 0) = List.replicate n 0 := by
  induction n generalizing m with
  | zero => rfl
  | succ k ih => simp [List.replicate_succ, scaleIn, ih]

/-- Scaling a block of zeros by the fade-out gains changes nothing. -/
theorem scaleOut_zeros (m n : ℕ) :
    scaleOut m (List.replicate n 0) = List.replicate n 0 := by
  induction n generalizing m with
  | zero => rfl
  | succ k ih => simp [List.replicate_succ, scaleOut, ih]

/-- One `process` call during an active fade-in: output scaled by the
next gain, envelope advanced (removed at step 5000), engine stepped. -/
theorem fadeIn_step (fns : RealFns) (st : ProcessorState) (A : ADAA) (x : ℚ)
    (m : ℕ) (hm : m < 5000) :
    NonlinearProcessor.process fns ⟨st, A, none, some (fadeInAt m)⟩ x =
      ((A.process x).1 * (((m : ℚ) + 1) / 5000),
       ⟨st, (A.process x).2, none,
        if m + 1 = 5000 then none else some (fadeInAt (m + 1))⟩) := by
  simp only [NonlinearProcessor.process, fadeInAt_consume m hm]
  by_cases h5 : m + 1 = 5000
  · rw [if_pos ((fadeInAt_target (m + 1)).mpr h5), if_pos h5]
  · rw [if_neg (fun hc => h5 ((fadeInAt_target (m + 1)).mp hc)), if_neg h5]

/-- One `process` call during an active fade-out, before completion:
output scaled by the next gain, envelope advanced, engine stepped. -/
theorem fadeOut_step (fns : RealFns) (st : ProcessorState) (A : ADAA) (x : ℚ)
    (m : ℕ) (hm : m + 1 < 5000) :
    NonlinearProcessor.process fns ⟨st, A, some (fadeOutAt m), none⟩ x =
      ((A.process x).1 * ((4999 - (m : ℚ)) / 5000),
       ⟨st, (A.process x).2, some (fadeOutAt (m + 1)), none⟩) := by
  simp only [NonlinearProcessor.process, fadeOutAt_consume m (by omega)]
  rw [if_neg (fun hc => by
    have := (fadeOutAt_target (m + 1)).mp hc
    omega)]

/-- The 5000th fade-out call: the gain is exactly 0, the engine is
wholesale-replaced by a freshly constructed one for the stored target state,
and the newly installed fade-in envelope is consumed once on the same
call. -/
theorem fadeOut_swap_step (fns : RealFns) (st : ProcessorState) (A : ADAA)
    (x : ℚ) :
    NonlinearProcessor.process fns ⟨st, A, some (fadeOutAt 4999), none⟩ x =
      ((A.process x).1 * 0 * (1 / 5000),
       ⟨st, ADAA.from_nl_state fns st, none, some (fadeInAt 1)⟩) := by
  simp only [NonlinearProcessor.process, fadeOutAt_consume 4999 (by omega)]
  rw [if_pos ((fadeOutAt_target 5000).mpr rfl)]
  simp only [fade_in_eq_fadeInAt, fadeInAt_consume 0 (by omega)]
  rw [if_neg (fun hc => by
    have := (fadeInAt_target 1).mp hc
    omega)]
  norm_num

/-- With no envelopes, the processor is a transparent wrapper around the
engine. -/
theorem steady_run (fns : RealFns) :
    ∀ (xs : List ℚ) (st : ProcessorState) (A : ADAA),
      NonlinearProcessor.runList fns ⟨st, A, none, none⟩ xs =
        ((A.runList xs).1, ⟨st, (A.runList xs).2, none, none⟩) := by
  intro xs
  induction xs with
  | nil => intro st A; rfl
  | cons x xs ih =>
    intro st A
    simp only [NonlinearProcessor.runList, ADAA.runList,
      NonlinearProcessor.process, ih]

/-- Block run during a fade-in: outputs are the raw engine outputs scaled
by the rising gains; the envelope disappears exactly when its 5000th step
is consumed. -/
theorem fadeIn_run (fns : RealFns) :
    ∀ (xs : List ℚ) (m : ℕ) (st : ProcessorState) (A : ADAA),
      m < 5000 → m + xs.length ≤ 5000 →
      NonlinearProcessor.runList fns ⟨st, A, none, some (fadeInAt m)⟩ xs =
        (scaleIn m (A.runList xs).1,
         ⟨st, (A.runList xs).2, none,
          if m + xs.length = 5000 then none
          else some (fadeInAt (m + xs.length))⟩) := by
  intro xs
  induction xs with
  | nil =>
    intro m st A hm hlen
    simp only [NonlinearProcessor.runList, ADAA.runList, scaleIn,
      List.length_nil, Nat.add_zero]
    rw [if_neg (by omega)]
  | cons x xs ih =>
    intro m st A hm hlen
    simp only [List.length_cons] at hlen
    simp only [NonlinearProcessor.runList, ADAA.runList, scaleIn,
      List.length_cons]
    rw [fadeIn_step fns st A x m hm]
    by_cases h5 : m + 1 = 5000
    · rw [if_pos h5]
      have hxs : xs = [] := List.length_eq_zero.mp (by omega)
      subst hxs
      simp only [NonlinearProcessor.runList, ADAA.runList, scaleIn,
        List.length_nil]
      rw [if_pos (by omega)]
    · rw [if_neg h5]
      rw [ih (m + 1) st (A.process x).2 (by omega) (by omega)]
      have harith : m + (xs.length + 1) = m + 1 + xs.length := by omega
      rw [harith]

/-- Block run during a fade-out (short of completion): outputs are the raw
engine outputs scaled by the decaying gains, the old engine keeps running
and no swap occurs. -/
theorem fadeOut_run (fns : RealFns) :
    ∀ (xs : List ℚ) (m : ℕ) (st : ProcessorState) (A : ADAA),
      m + xs.length ≤ 4999 →
      NonlinearProcessor.runList fns ⟨st, A, some (fadeOutAt m), none⟩ xs =
        (scaleOut m (A.runList xs).1,
         ⟨st, (A.runList xs).2, some (fadeOutAt (m + xs.length)), none⟩) := by
  intro xs
  induction xs with
  | nil =>
    intro m st A hlen
    simp only [NonlinearProcessor.runList, ADAA.runList, scaleOut,
      List.length_nil, Nat.add_zero]
  | cons x xs ih =>
    intro m st A hlen
    simp only [List.length_cons] at hlen
    simp only [NonlinearProcessor.runList, ADAA.runList, scaleOut,
      List.length_cons]
    rw [fadeOut_step fns st A x m (by omega)]
    rw [ih (m + 1) st (A.process x).2 (by omega)]
    have harith : m + (xs.length + 1) = m + 1 + xs.length := by omega
    rw [harith]

/-- Processor runs compose over concatenated blocks. -/
theorem NP_runList_append (fns : RealFns) (p : NonlinearProcessor)
    (xs ys : List ℚ) :
    NonlinearProcessor.runList fns p (xs ++ ys) =
      ((NonlinearProcessor.runList fns p xs).1 ++
        (NonlinearProcessor.runList fns
          (NonlinearProcessor.runList fns p xs).2 ys).1,
       (NonlinearProcessor.runList fns
         (NonlinearProcessor.runList fns p xs).2 ys).2) := by
  induction xs generalizing p with
  | nil => simp [NonlinearProcessor.runList]
  | cons x xs ih => simp [NonlinearProcessor.runList, ih]

/-- C9.  Requesting the current state is a no-op: state, live engine and
both envelope fields are untouched, so no fade starts. -/
theorem compare_same_state_noop (p : NonlinearProcessor) :
    p.compare_and_change_state p.state = p := by
  obtain ⟨st, pr, fo, fi⟩ := p
  obtain ⟨style, ord⟩ := st
  simp [NonlinearProcessor.compare_and_change_state]

/-- C8.  On every `process` call the engine is either merely advanced one
step, or - only when the fade-out envelope's current value equals its
target value exactly after this call's `consume` - wholesale-replaced by a
fresh engine for the stored state.  No other path replaces the engine. -/
theorem engine_swap_gating (fns : RealFns) (p : NonlinearProcessor) (x : ℚ) :
    (p.process fns x).2.proc = (p.proc.process x).2
    ∨ (∃ e, p.fade_out = some e
        ∧ e.consume.2.target_reached
        ∧ (p.process fns x).2.proc = ADAA.from_nl_state fns p.state) := by
  obtain ⟨st, pr, fo, fi⟩ := p
  rcases fo with _ | env
  · left
    rcases fi with _ | env2
    · rfl
    · simp only [NonlinearProcessor.process]
      split
      · rfl
      · rfl
  · by_cases hr : env.consume.2.target_reached
    · right
      refine ⟨env, rfl, hr, ?_⟩
      simp only [NonlinearProcessor.process]
      rw [if_pos hr]
      split
      · rfl
      · split
        · rfl
        · rfl
    · left
      simp only [NonlinearProcessor.process]
      rw [if_neg hr]
      rcases fi with _ | env2
      · rfl
      · split
        · rfl
        · split
          · rfl
          · rfl

/-- C10.  `NonlinearProcessor::new` installs an active 5000-step fade-in:
any first block of at most 5000 samples is the raw engine output scaled by
the rising gains `1/5000, 2/5000, …` (the envelope is still present before
call 5000 and gone exactly at call 5000), and afterwards the processor
runs the engine with no envelope applied. -/
theorem new_fade_in_behavior (fns : RealFns) :
    (NonlinearProcessor.new fns).fade_in =
      some (LinearEnvelope.fade_in FADE_LEN)
    ∧ (∀ xs : List ℚ, xs.length ≤ 5000 →
        NonlinearProcessor.runList fns (NonlinearProcessor.new fns) xs =
          (scaleIn 0
            ((ADAA.from_nl_state fns
              (.State .HardClip .FirstOrder)).runList xs).1,
           ⟨.State .HardClip .FirstOrder,
            ((ADAA.from_nl_state fns
              (.State .HardClip .FirstOrder)).runList xs).2,
            none,
            if xs.length = 5000 then none else some (fadeInAt xs.length)⟩))
    ∧ (∀ xs ys : List ℚ, xs.length = 5000 →
        NonlinearProcessor.runList fns
            (NonlinearProcessor.runList fns (NonlinearProcessor.new fns) xs).2
            ys =
          ((((ADAA.from_nl_state fns
              (.State .HardClip .FirstOrder)).runList xs).2.runList ys).1,
           ⟨.State .HardClip .FirstOrder,
            (((ADAA.from_nl_state fns
              (.State .HardClip .FirstOrder)).runList xs).2.runList ys).2,
            none, none⟩)) := by
  have hnew : NonlinearProcessor.new fns =
      ⟨.State .HardClip .FirstOrder,
       ADAA.from_nl_state fns (.State .HardClip .FirstOrder), none,
       some (fadeInAt 0)⟩ := by
    simp [NonlinearProcessor.new, fade_in_eq_fadeInAt]
  refine ⟨rfl, ?_, ?_⟩
  · intro xs hlen
    rw [hnew, fadeIn_run fns xs 0 _ _ (by omega) (by omega)]
    simp only [Nat.zero_add]
  · intro xs ys hlen
    rw [hnew, fadeIn_run fns xs 0 _ _ (by omega) (by omega)]
    rw [if_pos (by omega)]
    exact steady_run fns ys _ _

/-- C4 (amended).  The live-reconfiguration scenario: after 5000 warm-up
calls the processor is steady; `compare_and_change_state` records the new
state, starts a 5000-step fade-out and keeps the OLD engine; the next 4999
calls run the old first-order algorithm scaled by the decaying envelope
with no swap; the 5000th call scales by the envelope's exact zero, replaces
the engine with a freshly constructed second-order engine (no history
carried over) and consumes the first fade-in step on that same call; the
following calls run the new second-order algorithm scaled by the rising
envelope, and after exactly 4999 of them the processor is Steady in
(HardClip, SecondOrder). -/
theorem change_state_scenario (fns : RealFns) :
    NonlinearProcessor.runList fns (NonlinearProcessor.new fns)
        (List.replicate 5000 0) =
      (List.replicate 5000 0,
       ⟨.State .HardClip .FirstOrder,
        ADAA.from_nl_state fns (.State .HardClip .FirstOrder), none, none⟩)
    ∧ NonlinearProcessor.compare_and_change_state
        ⟨.State .HardClip .FirstOrder,
         ADAA.from_nl_state fns (.State .HardClip .FirstOrder), none, none⟩
        (.State .HardClip .SecondOrder) =
      ⟨.State .HardClip .SecondOrder,
       ADAA.from_nl_state fns (.State .HardClip .FirstOrder),
       some (fadeOutAt 0), none⟩
    ∧ (∀ xs : List ℚ, xs.length ≤ 4999 →
        NonlinearProcessor.runList fns
            ⟨.State .HardClip .SecondOrder,
             ADAA.from_nl_state fns (.State .HardClip .FirstOrder),
             some (fadeOutAt 0), none⟩ xs =
          (scaleOut 0
            ((ADAA.from_nl_state fns
              (.State .HardClip .FirstOrder)).runList xs).1,
           ⟨.State .HardClip .SecondOrder,
            ((ADAA.from_nl_state fns
              (.State .HardClip .FirstOrder)).runList xs).2,
            some (fadeOutAt xs.length), none⟩))
    ∧ (∀ (A : ADAA) (x : ℚ),
        NonlinearProcessor.process fns
            ⟨.State .HardClip .SecondOrder, A, some (fadeOutAt 4999), none⟩
            x =
          ((A.process x).1 * 0 * (1 / 5000),
           ⟨.State .HardClip .SecondOrder,
            ADAA.from_nl_state fns (.State .HardClip .SecondOrder), none,
            some (fadeInAt 1)⟩))
    ∧ (∀ xs : List ℚ, xs.length ≤ 4998 →
        NonlinearProcessor.runList fns
            ⟨.State .HardClip .SecondOrder,
             ADAA.from_nl_state fns (.State .HardClip .SecondOrder), none,
             some (fadeInAt 1)⟩ xs =
          (scaleIn 1
            ((ADAA.from_nl_state fns
              (.State .HardClip .SecondOrder)).runList xs).1,
           ⟨.State .HardClip .SecondOrder,
            ((ADAA.from_nl_state fns
              (.State .HardClip .SecondOrder)).runList xs).2,
            none, some (fadeInAt (1 + xs.length))⟩))
    ∧ NonlinearProcessor.runList fns
        ⟨.State .HardClip .SecondOrder,
         ADAA.from_nl_state fns (.State .HardClip .SecondOrder), none,
         some (fadeInAt 1)⟩ (List.replicate 4999 0) =
      (List.replicate 4999 0,
       ⟨.State .HardClip .SecondOrder,
        ADAA.from_nl_state fns (.State .HardClip .SecondOrder), none,
        none⟩) := by
  have hnew : NonlinearProcessor.new fns =
      ⟨.State .HardClip .FirstOrder,
       ADAA.from_nl_state fns (.State .HardClip .FirstOrder), none,
       some (fadeInAt 0)⟩ := by
    simp [NonlinearProcessor.new, fade_in_eq_fadeInAt]
  refine ⟨?_, ?_, ?_, ?_, ?_, ?_⟩
  · rw [hnew, fadeIn_run fns _ 0 _ _ (by omega)
      (by rw [List.length_replicate])]
    rw [runList_zero_fix _ (first_order_zero_fix fns) 5000, scaleIn_zeros]
    rw [if_pos (by rw [List.length_replicate])]
  · simp only [NonlinearProcessor.compare_and_change_state]
    rw [if_pos (by simp), fade_out_eq_fadeOutAt]
  · intro xs hlen
    rw [fadeOut_run fns xs 0 _ _ (by omega)]
    simp only [Nat.zero_add]
  · intro A x
    exact fadeOut_swap_step fns _ A x
  · intro xs hlen
    rw [fadeIn_run fns xs 1 _ _ (by omega) (by omega)]
    rw [if_neg (by omega)]
  · rw [fadeIn_run fns _ 1 _ _ (by omega)
      (by rw [List.length_replicate])]
    rw [runList_zero_fix _ (second_order_zero_fix fns) 4999, scaleIn_zeros]
    rw [if_pos (by rw [List.length_replicate])]


/-- C4, counterexample to the claim as stated: in the concrete scenario
(5000 warm-up zeros, the change request, 5000 zeros through the fade-out
and swap), the processor is already Steady (fade-in gone) after 4999
post-swap calls - not 5000 as claimed - and after 4998 calls the envelope
is still present, pinning completion at exactly 4999. -/
theorem change_state_counterexample :
    (NonlinearProcessor.runList zeroFns
      (NonlinearProcessor.runList zeroFns
        ((NonlinearProcessor.runList zeroFns (NonlinearProcessor.new zeroFns)
            (List.replicate 5000 0)).2.compare_and_change_state
          (.State .HardClip .SecondOrder))
        (List.replicate 5000 0)).2
      (List.replicate 4999 0)).2.fade_in = none
    ∧ (NonlinearProcessor.runList zeroFns
      (NonlinearProcessor.runList zeroFns
        ((NonlinearProcessor.runList zeroFns (NonlinearProcessor.new zeroFns)
            (List.replicate 5000 0)).2.compare_and_change_state
          (.State .HardClip .SecondOrder))
        (List.replicate 5000 0)).2
      (List.replicate 4998 0)).2.fade_in = some (fadeInAt 4999) := by
  have hnew : NonlinearProcessor.new zeroFns =
      ⟨.State .HardClip .FirstOrder,
       ADAA.from_nl_state zeroFns (.State .HardClip .FirstOrder), none,
       some (fadeInAt 0)⟩ := by
    simp [NonlinearProcessor.new, fade_in_eq_fadeInAt]
  have h3 : (NonlinearProcessor.runList zeroFns
        ((NonlinearProcessor.runList zeroFns (NonlinearProcessor.new zeroFns)
            (List.replicate 5000 0)).2.compare_and_change_state
          (.State .HardClip .SecondOrder))
        (List.replicate 5000 0)).2 =
      ⟨.State .HardClip .SecondOrder,
       ADAA.from_nl_state zeroFns (.State .HardClip .SecondOrder), none,
       some (fadeInAt 1)⟩ := by
    rw [hnew, fadeIn_run zeroFns _ 0 _ _ (by omega)
      (by rw [List.length_replicate])]
    rw [if_pos (by rw [List.length_replicate])]
    rw [runList_zero_fix _ (first_order_zero_fix zeroFns) 5000]
    dsimp only
    simp only [NonlinearProcessor.compare_and_change_state]
    rw [if_pos (by simp), fade_out_eq_fadeOutAt]
    have hsplit : List.replicate 5000 (0 : ℚ) =
        List.replicate 4999 0 ++ [0] := by
      rw [← List.replicate_succ']
    rw [hsplit, NP_runList_append]
    rw [fadeOut_run zeroFns _ 0 _ _ (by rw [List.length_replicate])]
    rw [runList_zero_fix _ (first_order_zero_fix zeroFns) 4999]
    dsimp only
    simp only [Nat.zero_add, List.length_replicate]
    simp only [NonlinearProcessor.runList]
    rw [fadeOut_swap_step]
  rw [h3]
  constructor
  · rw [fadeIn_run zeroFns _ 1 _ _ (by omega)
      (by rw [List.length_replicate]),
      if_pos (by rw [List.length_replicate])]
  · rw [fadeIn_run zeroFns _ 1 _ _ (by omega)
      (by rw [List.length_replicate]; omega),
      if_neg (by rw [List.length_replicate]; omega)]
    simp only [List.length_replicate]

/-- C10 witness: the fade-in behaviour evaluated on the concrete block
`[1, 2, 3]`. -/
theorem new_fade_in_witness :
    NonlinearProcessor.runList zeroFns (NonlinearProcessor.new zeroFns)
        [1, 2, 3] =
      (scaleIn 0
        ((ADAA.from_nl_state zeroFns
          (.State .HardClip .FirstOrder)).runList [1, 2, 3]).1,
       ⟨.State .HardClip .FirstOrder,
        ((ADAA.from_nl_state zeroFns
          (.State .HardClip .FirstOrder)).runList [1, 2, 3]).2,
        none,
        if ([1, 2, 3] : List ℚ).length = 5000 then none
        else some (fadeInAt ([1, 2, 3] : List ℚ).length)⟩) :=
  (new_fade_in_behavior zeroFns).2.1 [1, 2, 3] (by norm_num)

/-- C4 witness: the fade-out phase clause evaluated on the concrete block
`[1, 2]`. -/
theorem change_state_scenario_witness :
    NonlinearProcessor.runList zeroFns
        ⟨.State .HardClip .SecondOrder,
         ADAA.from_nl_state zeroFns (.State .HardClip .FirstOrder),
         some (fadeOutAt 0), none⟩ [1, 2] =
      (scaleOut 0
        ((ADAA.from_nl_state zeroFns
          (.State .HardClip .FirstOrder)).runList [1, 2]).1,
       ⟨.State .HardClip .SecondOrder,
        ((ADAA.from_nl_state zeroFns
          (.State .HardClip .FirstOrder)).runList [1, 2]).2,
        some (fadeOutAt ([1, 2] : List ℚ).length), none⟩) :=
  (change_state_scenario zeroFns).2.2.1 [1, 2] (by norm_num)

/-! ### Oversampler claims (construction fails in this snapshot) -/

/-- C6 (code evaluation at the failing input).  For every factor and block
size, `Oversample::new` does not return an oversampler: its stage
constructor's unconditional `todo!` panic fires first, so no value whose
`get_oversample_factor` could be inspected is ever produced. -/
theorem oversample_new_panics (factor : OversampleFactor) (n : ℕ) :
    Oversample.new factor n =
      Except.error "not yet implemented: implement kernel_size as parameter" :=
  rfl

/-- C5 (code evaluation at the failing input).  The impulse round-trip is
unreachable: for every factor, block size and input block the experiment
fails before producing any output sample. -/
theorem oversample_round_trip_fails (factor : OversampleFactor) (n : ℕ)
    (input : List ℚ) :
    (Oversample.round_trip factor n input).isOk = false :=
  rfl
